import Mathlib

/-!
Shallow embedding of the MySQL proxy codec primitives from
`source/extensions/filters/network/mysql_proxy/mysql_codec.cc`.

Modelling conventions:
- A `Buffer::Instance` is a list of byte values (`List Nat`); a genuine wire
  buffer has every element `< 256` (the predicate `Buffer.WF`).
- Machine integers are modelled as `Nat` bit patterns; the single signed
  comparison in the source (`val < LENENCODINT_1BYTE` on an `int`) is
  modelled by `int32Lt`, which interprets the 32-bit pattern as two's
  complement.
- The instance cursor `offset_` is threaded explicitly: every drain
  operation takes the cursor (and the current contents of its output
  parameter, since C++ leaves the output untouched on failure and the
  length-encoded-integer reader even branches on it) and returns a
  result record carrying the status, the new cursor and the new output.
- The `int`-typed byte counts (`len`, `skip_bytes`) are modelled as `Nat`:
  every call site in the source passes a non-negative byte count
  (`sizeof` values or decoded lengths).
- `MYSQL_SUCCESS` / `MYSQL_FAILURE` become `Bool` (`ok = true` / `false`).
- The host is little-endian (the platform the codec targets and the one
  the spec's concrete scenarios assume), so `buffer.copyOut` into a
  `uintN_t` assembles bytes little-endian, and `htonl` is a 32-bit byte
  swap (`bswap32`).
-/

namespace MySQLProxy

/-- A byte buffer: `Buffer::Instance` content as a list of byte values. -/
structure Buffer where
  data : List Nat
deriving Repr, DecidableEq

/-- `buffer.length()`. -/
def Buffer.length (b : Buffer) : Nat := b.data.length

/-- Well-formedness of a wire buffer: every element is a byte value. -/
def Buffer.WF (b : Buffer) : Prop := ∀ x ∈ b.data, x < 256

instance (b : Buffer) : Decidable b.WF := by
  unfold Buffer.WF; infer_instance

/-- `buffer.copyOut(off, len, dst)`: the `len` bytes starting at `off`. -/
def Buffer.copyOutBytes (b : Buffer) (off len : Nat) : List Nat :=
  (b.data.drop off).take len

/-- Little-endian value of a byte list (first byte is least significant). -/
def leVal : List Nat → Nat
  | [] => 0
  | x :: rest => x + 256 * leVal rest

/-- Little-endian byte decomposition of a value into `w` bytes. -/
def leBytes : Nat → Nat → List Nat
  | 0, _ => []
  | w + 1, v => v % 256 :: leBytes w (v / 256)

/-- Index of the first occurrence of `c` in `l` (from the head), if any. -/
def searchIdx (c : Nat) : List Nat → Option Nat
  | [] => none
  | x :: rest => if x = c then some 0 else (searchIdx c rest).map (· + 1)

/-- `buffer.search(&c, 1, start)`: position of the first occurrence of byte
`c` at index `start` or later, or `none` (the source's `-1`). -/
def Buffer.search (b : Buffer) (c start : Nat) : Option Nat :=
  (searchIdx c (b.data.drop start)).map (· + start)

/-- Signed 32-bit comparison of two bit patterns (two's complement). -/
def int32Lt (x y : Nat) : Bool :=
  let toZ : Nat → Int := fun v => if v < 2 ^ 31 then (v : Int) else (v : Int) - 2 ^ 32
  toZ x < toZ y

/-- 32-bit byte swap: `htonl` on a little-endian host. -/
def bswap32 (v : Nat) : Nat :=
  v % 256 * 2 ^ 24 + v / 2 ^ 8 % 256 * 2 ^ 16 + v / 2 ^ 16 % 256 * 2 ^ 8 + v / 2 ^ 24 % 256

/-- Result of a drain call: the returned status (`MYSQL_SUCCESS` = `true`),
the instance cursor `offset_` after the call, and the contents of the
output parameter after the call. -/
structure Res (α : Type) where
  ok : Bool
  off : Nat
  val : α
deriving Repr, DecidableEq

/-- `MySQLCodec::BufUint8Drain` / `BufUint16Drain` / `BufUint32Drain` /
`BufUint64Drain`, generic in the byte width `w` of the destination: fail if
`buffer.length() < offset_ + w`; else `copyOut` `w` little-endian bytes
into the destination (fully overwriting it) and advance the cursor. -/
def fixedDrain (w : Nat) (buffer : Buffer) (offset val : Nat) : Res Nat :=
  if buffer.length < offset + w then ⟨false, offset, val⟩
  else ⟨true, offset + w, leVal (buffer.copyOutBytes offset w)⟩

/-- `MySQLCodec::BufUint8Drain`. -/
def BufUint8Drain (buffer : Buffer) (offset val : Nat) : Res Nat :=
  fixedDrain 1 buffer offset val

/-- `MySQLCodec::BufUint16Drain`. -/
def BufUint16Drain (buffer : Buffer) (offset val : Nat) : Res Nat :=
  fixedDrain 2 buffer offset val

/-- `MySQLCodec::BufUint32Drain`. -/
def BufUint32Drain (buffer : Buffer) (offset val : Nat) : Res Nat :=
  fixedDrain 4 buffer offset val

/-- `MySQLCodec::BufUint64Drain`. -/
def BufUint64Drain (buffer : Buffer) (offset val : Nat) : Res Nat :=
  fixedDrain 8 buffer offset val

/-- `MySQLCodec::BufReadBySizeDrain`: copy `len` requested bytes into a
4-byte `int` destination with no guard relating `len` to the destination
width. The destination register receives the low `min len 4` copied bytes
(its other bytes keep their prior value when `len < 4`); when `len > 4`
the remaining copied bytes overrun past the destination (the latent
defect flagged in the design notes) without further changing `val`. -/
def BufReadBySizeDrain (buffer : Buffer) (offset len val : Nat) : Res Nat :=
  if buffer.length < offset + len then ⟨false, offset, val⟩
  else
    ⟨true, offset + len,
      leVal (buffer.copyOutBytes offset len) % 2 ^ (8 * min len 4) +
        val / 2 ^ (8 * min len 4) * 2 ^ (8 * min len 4)⟩

/-- `MySQLCodec::DrainBytes`: skip `skip_bytes` bytes. -/
def DrainBytes (buffer : Buffer) (offset skip_bytes : Nat) : Bool × Nat :=
  if buffer.length < offset + skip_bytes then (false, offset)
  else (true, offset + skip_bytes)

/-- Marker constants. Modelled from the spec: `mysql_codec.h` (not under
`src/`) defines `LENENCODINT_1BYTE`/`_2BYTES`/`_3BYTES`/`_8BYTES`; the
spec's marker table gives 251, 0xFC, 0xFD, 0xFE. -/
def LENENCODINT_1BYTE : Nat := 251

/-- Marker for a 2-byte length-encoded integer body. -/
def LENENCODINT_2BYTES : Nat := 0xfc

/-- Marker for a 3-byte length-encoded integer body. -/
def LENENCODINT_3BYTES : Nat := 0xfd

/-- Marker for an 8-byte length-encoded integer body. -/
def LENENCODINT_8BYTES : Nat := 0xfe

/-- `MySQLCodec::ReadLengthEncodedIntegerDrain`. Note that the source
tests `val < LENENCODINT_1BYTE` — the prior contents of the output
parameter, compared as a signed `int` — where the referenced protocol
document calls for testing the freshly read marker `byte_val`. -/
def ReadLengthEncodedIntegerDrain (buffer : Buffer) (offset val : Nat) : Res Nat :=
  let r1 := BufUint8Drain buffer offset 0
  if r1.ok = false then ⟨false, offset, val⟩
  else
    let byte_val := r1.val
    if int32Lt val LENENCODINT_1BYTE then ⟨true, r1.off, byte_val⟩
    else if byte_val = LENENCODINT_2BYTES then BufReadBySizeDrain buffer r1.off 2 val
    else if byte_val = LENENCODINT_3BYTES then BufReadBySizeDrain buffer r1.off 3 val
    else if byte_val = LENENCODINT_8BYTES then BufReadBySizeDrain buffer r1.off 8 val
    else ⟨false, r1.off, val⟩

/-- `MYSQL_STR_END`. Modelled from the spec: the terminator byte is 0x00. -/
def MYSQL_STR_END : Nat := 0

/-- `MySQLCodec::BufStringDrain`: find the first terminator at or after the
cursor; on success the string is `buffer[offset_ .. index)` (the source
takes the first `index` bytes via `linearize` and then `substr(offset_)`)
and the cursor moves one past the terminator. -/
def BufStringDrain (buffer : Buffer) (offset : Nat) (str : List Nat) : Res (List Nat) :=
  match buffer.search MYSQL_STR_END offset with
  | none => ⟨false, offset, str⟩
  | some index =>
    if buffer.length < index + 1 then ⟨false, offset, str⟩
    else ⟨true, index + 1, (buffer.data.take index).drop offset⟩

/-- `MySQLCodec::BufStringDrainBySize`: the source linearizes the first
`len + offset_` bytes and keeps the suffix from `offset_`. -/
def BufStringDrainBySize (buffer : Buffer) (offset len : Nat) (str : List Nat) :
    Res (List Nat) :=
  if buffer.length < offset + len then ⟨false, offset, str⟩
  else ⟨true, offset + len, (buffer.data.take (len + offset)).drop offset⟩

/-- `MySQLCodec::BufToString`, in state-passing form to record its effect
on the codec state: `linearize(buffer.length())` yields the buffer's first
`length` bytes and the instance cursor and buffer are untouched. -/
def BufToString (buffer : Buffer) (offset : Nat) : List Nat × Nat × Buffer :=
  (buffer.data.take buffer.length, offset, buffer)

/-- The command tag returned by `ParseCmd`: `COM_NULL` is the sentinel
enumerator of `MySQLCodec::Cmd` (from `mysql_codec.h`, not under `src/`;
its value −1 is distinct from every command byte), and `ofByte b` is
`static_cast<Cmd>(b)` for a command byte `b`. -/
inductive Cmd where
  | COM_NULL : Cmd
  | ofByte : Nat → Cmd
deriving Repr, DecidableEq

/-- `MySQLCodec::ParseCmd`: drain one byte; on failure return `COM_NULL`
(cursor untouched), else the byte cast to `Cmd`. -/
def ParseCmd (buffer : Buffer) (offset : Nat) : Cmd × Nat :=
  let r := BufUint8Drain buffer offset 0
  if r.ok = false then (Cmd.COM_NULL, offset)
  else (Cmd.ofByte r.val, r.off)

/-- Header masks. Modelled from the spec: `mysql_codec.h` (not under
`src/`) defines `MYSQL_HDR_SEQ_MASK` and `MYSQL_HDR_PKT_SIZE_MASK`; the
spec's layout (bits 0..23 length, bits 24..31 sequence) gives 0xFF and
0xFFFFFF. -/
def MYSQL_HDR_SEQ_MASK : Nat := 0xff

/-- Low-24-bit mask for the payload length. -/
def MYSQL_HDR_PKT_SIZE_MASK : Nat := 0xffffff

/-- Result of `HdrReadDrain`: status, cursor, and the two `int` outputs. -/
structure HdrRes where
  ok : Bool
  off : Nat
  len : Nat
  seq : Nat
deriving Repr, DecidableEq

/-- `MySQLCodec::HdrReadDrain`: drain a `uint32_t`; then
`seq = htonl(val) & MYSQL_HDR_SEQ_MASK` and
`len = val & MYSQL_HDR_PKT_SIZE_MASK` (masking by `2^k − 1` is `% 2^k`). -/
def HdrReadDrain (buffer : Buffer) (offset len seq : Nat) : HdrRes :=
  let r := BufUint32Drain buffer offset 0
  if r.ok = false then ⟨false, offset, len, seq⟩
  else ⟨true, r.off, r.val % 2 ^ 24, bswap32 r.val % 256⟩

/-- `MySQLCodec::EncodeHdr`: fill the `MySQLHeader` union (bit-fields
`length : 24` and `seq : 8`, so `bits = length % 2^24 + (seq % 2^8) * 2^24`
— the union layout is modelled from the spec's header description since
`mysql_codec.h` is not under `src/`), append `bits` as 4 little-endian
bytes (`BufUint32Add` on a little-endian host), then append the payload. -/
def EncodeHdr (cmd_str : List Nat) (seq : Nat) : List Nat :=
  let bits := cmd_str.length % 2 ^ 24 + seq % 2 ^ 8 * 2 ^ 24
  leBytes 4 bits ++ cmd_str

/-- `MySQLCodec::EndOfBuffer`, in state-passing form: returns whether the
cursor sits at the buffer's end; the codec state is untouched. -/
def EndOfBuffer (buffer : Buffer) (offset : Nat) : Bool × Nat × Buffer :=
  (buffer.length == offset, offset, buffer)

/-! ### Helper lemmas -/

theorem copyOutBytes_length (b : Buffer) (off len : Nat) (h : off + len ≤ b.length) :
    (b.copyOutBytes off len).length = len := by
  simp only [Buffer.copyOutBytes, List.length_take, List.length_drop]
  unfold Buffer.length at h
  omega

theorem searchIdx_some {c : Nat} {l : List Nat} {j : Nat} (h : searchIdx c l = some j) :
    l.get? j = some c ∧ ∀ i, i < j → l.get? i ≠ some c := by
  induction l generalizing j with
  | nil => simp [searchIdx] at h
  | cons x rest ih =>
    by_cases hx : x = c
    · simp [searchIdx, hx] at h
      subst h
      subst hx
      exact ⟨rfl, by omega⟩
    · simp [searchIdx, hx] at h
      obtain ⟨j1, hj1, rfl⟩ := h
      have hspec := ih hj1
      refine ⟨by simpa using hspec.1, ?_⟩
      intro i hi
      cases i with
      | zero => simp [hx]
      | succ i => simpa using hspec.2 i (by omega)

theorem searchIdx_none {c : Nat} {l : List Nat} (h : searchIdx c l = none) :
    ∀ i, l.get? i ≠ some c := by
  induction l with
  | nil => simp
  | cons x rest ih =>
    by_cases hx : x = c
    · simp [searchIdx, hx] at h
    · simp [searchIdx, hx] at h
      intro i
      cases i with
      | zero => simp [hx]
      | succ i => simpa using ih h i

theorem search_some {b : Buffer} {c start index : Nat}
    (h : b.search c start = some index) :
    start ≤ index ∧ index < b.length ∧ b.data.get? index = some c ∧
      ∀ i, start ≤ i → i < index → b.data.get? i ≠ some c := by
  simp only [Buffer.search, Option.map_eq_some'] at h
  obtain ⟨j, hj, rfl⟩ := h
  have hspec := searchIdx_some hj
  rw [List.get?_drop] at hspec
  have hlt : start + j < b.data.length := (List.get?_eq_some.mp hspec.1).1
  have hget : b.data.get? (j + start) = some c := by
    rw [Nat.add_comm j start]
    exact hspec.1
  refine ⟨by omega, by unfold Buffer.length; omega, hget, ?_⟩
  intro i hsi hij
  have hne := hspec.2 (i - start) (by omega)
  rw [List.get?_drop] at hne
  have heq : start + (i - start) = i := by omega
  rwa [heq] at hne

theorem search_none {b : Buffer} {c start : Nat} (h : b.search c start = none) :
    ∀ i, start ≤ i → b.data.get? i ≠ some c := by
  simp only [Buffer.search, Option.map_eq_none'] at h
  intro i hsi
  have := searchIdx_none h (i - start)
  rw [List.get?_drop] at this
  have heq : start + (i - start) = i := by omega
  rwa [heq] at this

/-- The contract claimed for a fixed-width drain of width `w`: success iff
`w` bytes remain from the cursor; on success the value is exactly those
bytes little-endian and the cursor advances by `w`; on failure cursor and
output are unchanged. -/
def DrainContract (f : Buffer → Nat → Nat → Res Nat) (w : Nat) : Prop :=
  ∀ (buffer : Buffer) (offset val : Nat),
    ((f buffer offset val).ok = true ↔ offset + w ≤ buffer.length) ∧
    (offset + w ≤ buffer.length →
      f buffer offset val = ⟨true, offset + w, leVal (buffer.copyOutBytes offset w)⟩) ∧
    (buffer.length < offset + w → f buffer offset val = ⟨false, offset, val⟩)

theorem fixedDrain_contract (w : Nat) : DrainContract (fixedDrain w) w := by
  intro buffer offset val
  by_cases h : buffer.length < offset + w <;>
    simp [fixedDrain, h] <;> omega

/-- Cursor discipline of one drain call that started at `offset`: a
successful call leaves the cursor within the buffer, and the cursor never
decreases. -/
def CursorOk (buffer : Buffer) (offset : Nat) (ok : Bool) (off : Nat) : Prop :=
  (ok = true → off ≤ buffer.length) ∧ offset ≤ off

/-! ### Claim theorems -/

/-- C1: the spec says a length-encoded integer is decoded from the marker
byte alone, so `0xFC 0x2C 0x01` must decode to 300 regardless of the
output variable's prior contents. The code instead branches on the prior
contents of `val` (`val < LENENCODINT_1BYTE`, not `byte_val`), so with
prior `val = 0` the same bytes decode to 0xFC = 252 (the marker itself,
body unread), while with prior `val = 251` they decode to 300. This
contradicts the MySQL length-encoded-integer document the function's own
comment cites: a code bug in `ReadLengthEncodedIntegerDrain`. -/
theorem lenenc_decode_uses_prior_val_C1 :
    ReadLengthEncodedIntegerDrain ⟨[0xFC, 0x2C, 0x01]⟩ 0 0 = ⟨true, 1, 252⟩ ∧
    ReadLengthEncodedIntegerDrain ⟨[0xFC, 0x2C, 0x01]⟩ 0 251 = ⟨true, 3, 300⟩ ∧
    ¬ (ReadLengthEncodedIntegerDrain ⟨[0xFC, 0x2C, 0x01]⟩ 0 0).val = 300 := by
  refine ⟨by decide, by decide, by decide⟩

/-- C4 counterexample: with buffer `[0xFB]`, cursor 0 and prior output 251,
`ReadLengthEncodedIntegerDrain` fails (0xFB is not a legal marker here)
yet the cursor after the call is 1, not its prior value 0 — the claim
"the cursor after a failed call equals its value before the call" is
false on the code. -/
theorem lenenc_failed_call_moves_cursor_C4_cex :
    (ReadLengthEncodedIntegerDrain ⟨[0xFB]⟩ 0 251).ok = false ∧
    (ReadLengthEncodedIntegerDrain ⟨[0xFB]⟩ 0 251).off = 1 ∧
    ¬ (ReadLengthEncodedIntegerDrain ⟨[0xFB]⟩ 0 251).off = 0 := by
  refine ⟨by decide, by decide, by decide⟩

/-- C4 amended: when `ReadLengthEncodedIntegerDrain` fails, the cursor is
unchanged only if the initial marker-byte read itself failed (fewer than
one byte remaining); on every other failure (illegal marker, or too few
body bytes for the marker's width) the cursor has advanced exactly one
byte past the consumed marker and is not restored. -/
theorem lenenc_failure_cursor_C4 (buffer : Buffer) (offset val : Nat)
    (hfail : (ReadLengthEncodedIntegerDrain buffer offset val).ok = false) :
    (ReadLengthEncodedIntegerDrain buffer offset val).off =
      if buffer.length < offset + 1 then offset else offset + 1 := by
  by_cases h1 : buffer.length < offset + 1
  · simp [ReadLengthEncodedIntegerDrain, BufUint8Drain, fixedDrain, h1]
  · have hr1 : BufUint8Drain buffer offset 0 =
        ⟨true, offset + 1, leVal (buffer.copyOutBytes offset 1)⟩ := by
      simp [BufUint8Drain, fixedDrain, h1]
    simp only [ReadLengthEncodedIntegerDrain, hr1, if_neg h1] at hfail ⊢
    by_cases h2 : int32Lt val LENENCODINT_1BYTE
    · simp [h2] at hfail
    · by_cases e2 : leVal (buffer.copyOutBytes offset 1) = LENENCODINT_2BYTES
      · by_cases hg : buffer.length < offset + 1 + 2 <;>
          simp [h2, e2, BufReadBySizeDrain, hg, LENENCODINT_2BYTES, LENENCODINT_3BYTES,
            LENENCODINT_8BYTES] at hfail ⊢
      · by_cases e3 : leVal (buffer.copyOutBytes offset 1) = LENENCODINT_3BYTES
        · by_cases hg : buffer.length < offset + 1 + 3 <;>
            simp [h2, e2, e3, BufReadBySizeDrain, hg, LENENCODINT_2BYTES, LENENCODINT_3BYTES,
              LENENCODINT_8BYTES] at hfail ⊢
        · by_cases e8 : leVal (buffer.copyOutBytes offset 1) = LENENCODINT_8BYTES
          · by_cases hg : buffer.length < offset + 1 + 8 <;>
              simp [h2, e2, e3, e8, BufReadBySizeDrain, hg, LENENCODINT_2BYTES, LENENCODINT_3BYTES,
                LENENCODINT_8BYTES] at hfail ⊢
          · simp [h2, e2, e3, e8] at hfail ⊢

/-- C4 witness: the amended statement at the counterexample input. -/
theorem lenenc_failure_cursor_C4_witness :
    (ReadLengthEncodedIntegerDrain ⟨[0xFB, 0xFB]⟩ 1 251).off =
      if (Buffer.mk [0xFB, 0xFB]).length < 1 + 1 then 1 else 1 + 1 :=
  lenenc_failure_cursor_C4 ⟨[0xFB, 0xFB]⟩ 1 251 (by decide)

/-- C5: each of the 8/16/32/64-bit drain reads succeeds iff that many
bytes remain from the cursor; on success the output is exactly those
bytes interpreted little-endian and the cursor advances by exactly that
width; on failure the cursor and the output variable are unchanged. -/
theorem fixed_width_drain_contract_C5 :
    DrainContract BufUint8Drain 1 ∧ DrainContract BufUint16Drain 2 ∧
    DrainContract BufUint32Drain 4 ∧ DrainContract BufUint64Drain 8 :=
  ⟨fixedDrain_contract 1, fixedDrain_contract 2, fixedDrain_contract 4, fixedDrain_contract 8⟩

/-- C7: `BufReadBySizeDrain` has no guard relating the requested width to
its 4-byte `int` destination: for every requested length 1..8 (including
the 8-byte case used for marker 0xFE), whenever that many bytes remain
from the cursor the call succeeds, the cursor advances by the requested
length, and the copied slice is exactly that many bytes — copied into the
4-byte destination (low `min len 4` bytes land in `val`, the rest of the
copy overruns it); no width is rejected. -/
theorem read_by_size_no_width_guard_C7 (buffer : Buffer) (offset len val : Nat)
    (h1 : 1 ≤ len) (h8 : len ≤ 8) (h : offset + len ≤ buffer.length) :
    (BufReadBySizeDrain buffer offset len val).ok = true ∧
    (BufReadBySizeDrain buffer offset len val).off = offset + len ∧
    (buffer.copyOutBytes offset len).length = len ∧
    (BufReadBySizeDrain buffer offset len val).val =
      leVal (buffer.copyOutBytes offset len) % 2 ^ (8 * min len 4) +
        val / 2 ^ (8 * min len 4) * 2 ^ (8 * min len 4) := by
  have hguard : ¬ buffer.length < offset + len := by omega
  refine ⟨?_, ?_, copyOutBytes_length buffer offset len h, ?_⟩ <;>
    simp [BufReadBySizeDrain, hguard]

/-- C7 witness: the 8-byte case on a concrete buffer. -/
theorem read_by_size_no_width_guard_C7_witness :
    (BufReadBySizeDrain ⟨[1, 2, 3, 4, 5, 6, 7, 8]⟩ 0 8 0).ok = true ∧
    (BufReadBySizeDrain ⟨[1, 2, 3, 4, 5, 6, 7, 8]⟩ 0 8 0).off = 0 + 8 ∧
    ((Buffer.mk [1, 2, 3, 4, 5, 6, 7, 8]).copyOutBytes 0 8).length = 8 ∧
    (BufReadBySizeDrain ⟨[1, 2, 3, 4, 5, 6, 7, 8]⟩ 0 8 0).val =
      leVal ((Buffer.mk [1, 2, 3, 4, 5, 6, 7, 8]).copyOutBytes 0 8) % 2 ^ (8 * min 8 4) +
        0 / 2 ^ (8 * min 8 4) * 2 ^ (8 * min 8 4) :=
  read_by_size_no_width_guard_C7 ⟨[1, 2, 3, 4, 5, 6, 7, 8]⟩ 0 8 0
    (by decide) (by decide) (by decide)

/-- C10: `BufToString` returns the buffer's entire current byte content,
and neither `BufToString` nor `EndOfBuffer` changes the instance cursor
or the buffer. -/
theorem buf_to_string_end_of_buffer_readonly_C10 (buffer : Buffer) (offset : Nat) :
    (BufToString buffer offset).1 = buffer.data ∧
    (BufToString buffer offset).2.1 = offset ∧
    (BufToString buffer offset).2.2 = buffer ∧
    (EndOfBuffer buffer offset).2.1 = offset ∧
    (EndOfBuffer buffer offset).2.2 = buffer := by
  refine ⟨?_, rfl, rfl, rfl, rfl⟩
  simp [BufToString, Buffer.length]

theorem list_length_four {l : List Nat} (h : l.length = 4) :
    ∃ a b c d, l = [a, b, c, d] := by
  rcases l with _ | ⟨a, _ | ⟨b, _ | ⟨c, _ | ⟨d, _ | ⟨e, t⟩⟩⟩⟩⟩ <;> simp at h
  exact ⟨a, b, c, d, rfl⟩

theorem bswap32_mod256 (v : Nat) : bswap32 v % 256 = v / 16777216 % 256 := by
  unfold bswap32
  norm_num
  omega

theorem leVal_leBytes (w v : Nat) : leVal (leBytes w v) = v % 2 ^ (8 * w) := by
  induction w generalizing v with
  | zero => simp [leBytes, leVal, Nat.mod_one]
  | succ w ih =>
    simp only [leBytes, leVal, ih]
    rw [show 8 * (w + 1) = 8 + 8 * w by ring, pow_add]
    rw [show (2 : Nat) ^ 8 = 256 by norm_num]
    rw [Nat.mod_mul]

/-- C2: for every 4-byte header word read from the buffer, the decoded
payload length is the value of the low 24 bits (first three wire bytes,
little-endian) and the decoded sequence is the fourth wire byte. -/
theorem hdr_read_drain_decode_C2 (buffer : Buffer) (offset len0 seq0 : Nat)
    (hwf : buffer.WF) (h : offset + 4 ≤ buffer.length) :
    HdrReadDrain buffer offset len0 seq0 =
      ⟨true, offset + 4, leVal ((buffer.copyOutBytes offset 4).take 3),
        (buffer.copyOutBytes offset 4).getD 3 0⟩ := by
  obtain ⟨b0, b1, b2, b3, hB⟩ := list_length_four (copyOutBytes_length buffer offset 4 h)
  have hmem : ∀ x ∈ buffer.copyOutBytes offset 4, x < 256 := by
    intro x hx
    exact hwf x (List.drop_subset offset buffer.data (List.take_subset 4 _ hx))
  rw [hB] at hmem
  have hb0 : b0 < 256 := hmem b0 (by simp)
  have hb1 : b1 < 256 := hmem b1 (by simp)
  have hb2 : b2 < 256 := hmem b2 (by simp)
  have hb3 : b3 < 256 := hmem b3 (by simp)
  have hguard : ¬ buffer.length < offset + 4 := by omega
  have hfix : BufUint32Drain buffer offset 0 =
      ⟨true, offset + 4, leVal (buffer.copyOutBytes offset 4)⟩ := by
    simp [BufUint32Drain, fixedDrain, hguard]
  simp only [HdrReadDrain, hfix, Res.ok, Res.off, Res.val,
    Bool.true_eq_false, if_false, hB]
  rw [bswap32_mod256]
  simp only [leVal, List.take_succ_cons, List.take_zero, List.getD,
    List.getElem?_cons_zero, List.getElem?_cons_succ, Option.getD_some,
    HdrRes.mk.injEq, true_and]
  constructor <;> norm_num <;> omega

/-- C3: decoding the header produced by `EncodeHdr` on a payload of length
at most 16,777,215 with a sequence number at most 255 yields exactly the
payload's length and that sequence number. -/
theorem encode_hdr_roundtrip_C3 (payload : List Nat) (seq : Nat)
    (hlen : payload.length ≤ 0xffffff) (hseq : seq ≤ 255) :
    HdrReadDrain ⟨EncodeHdr payload seq⟩ 0 0 0 = ⟨true, 4, payload.length, seq⟩ := by
  have hguard : ¬ (Buffer.mk (EncodeHdr payload seq)).length < 0 + 4 := by
    simp [Buffer.length, EncodeHdr, leBytes]
  have hfix : BufUint32Drain ⟨EncodeHdr payload seq⟩ 0 0 =
      ⟨true, 0 + 4, leVal ((Buffer.mk (EncodeHdr payload seq)).copyOutBytes 0 4)⟩ := by
    simp [BufUint32Drain, fixedDrain, hguard]
  have hcopy : (Buffer.mk (EncodeHdr payload seq)).copyOutBytes 0 4 =
      leBytes 4 (payload.length % 2 ^ 24 + seq % 2 ^ 8 * 2 ^ 24) := rfl
  simp only [HdrReadDrain, hfix, Res.ok, Res.off, Res.val,
    Bool.true_eq_false, if_false, hcopy, leVal_leBytes]
  rw [bswap32_mod256]
  simp only [HdrRes.mk.injEq, true_and]
  norm_num
  all_goals omega

theorem cursorOk_fixedDrain (buffer : Buffer) (offset w val : Nat) :
    CursorOk buffer offset (fixedDrain w buffer offset val).ok
      (fixedDrain w buffer offset val).off := by
  by_cases hg : buffer.length < offset + w <;>
    simp [fixedDrain, CursorOk, hg] <;> omega

theorem cursorOk_readBySize_from (buffer : Buffer) (offset o len val : Nat)
    (ho : offset ≤ o) :
    CursorOk buffer offset (BufReadBySizeDrain buffer o len val).ok
      (BufReadBySizeDrain buffer o len val).off := by
  by_cases hg : buffer.length < o + len <;>
    simp [BufReadBySizeDrain, CursorOk, hg] <;> omega

theorem cursorOk_lenenc (buffer : Buffer) (offset val : Nat) :
    CursorOk buffer offset (ReadLengthEncodedIntegerDrain buffer offset val).ok
      (ReadLengthEncodedIntegerDrain buffer offset val).off := by
  by_cases h1 : buffer.length < offset + 1
  · simp [ReadLengthEncodedIntegerDrain, BufUint8Drain, fixedDrain, h1, CursorOk]
  · have hr1 : BufUint8Drain buffer offset 0 =
        ⟨true, offset + 1, leVal (buffer.copyOutBytes offset 1)⟩ := by
      simp [BufUint8Drain, fixedDrain, h1]
    simp only [ReadLengthEncodedIntegerDrain, hr1, Res.ok, Res.off, Res.val,
      Bool.true_eq_false, if_false]
    by_cases h2 : int32Lt val LENENCODINT_1BYTE
    · simp [h2, CursorOk]
      omega
    · by_cases e2 : leVal (buffer.copyOutBytes offset 1) = LENENCODINT_2BYTES
      · simpa [h2, e2] using cursorOk_readBySize_from buffer offset (offset + 1) 2 val (by omega)
      · by_cases e3 : leVal (buffer.copyOutBytes offset 1) = LENENCODINT_3BYTES
        · simpa [h2, e2, e3, LENENCODINT_2BYTES, LENENCODINT_3BYTES] using
            cursorOk_readBySize_from buffer offset (offset + 1) 3 val (by omega)
        · by_cases e8 : leVal (buffer.copyOutBytes offset 1) = LENENCODINT_8BYTES
          · simpa [h2, e2, e3, e8, LENENCODINT_2BYTES, LENENCODINT_3BYTES,
              LENENCODINT_8BYTES] using
              cursorOk_readBySize_from buffer offset (offset + 1) 8 val (by omega)
          · simp [h2, e2, e3, e8, CursorOk]

theorem cursorOk_string (buffer : Buffer) (offset : Nat) (str : List Nat) :
    CursorOk buffer offset (BufStringDrain buffer offset str).ok
      (BufStringDrain buffer offset str).off := by
  unfold BufStringDrain
  cases hs : buffer.search MYSQL_STR_END offset with
  | none => simp [CursorOk]
  | some index =>
    obtain ⟨hsi, hlt, -, -⟩ := search_some hs
    by_cases hg : buffer.length < index + 1 <;>
      simp [CursorOk, hg] <;> omega

theorem cursorOk_hdr (buffer : Buffer) (offset len seq : Nat) :
    CursorOk buffer offset (HdrReadDrain buffer offset len seq).ok
      (HdrReadDrain buffer offset len seq).off := by
  by_cases hg : buffer.length < offset + 4 <;>
    simp [HdrReadDrain, BufUint32Drain, fixedDrain, hg, CursorOk] <;> omega

/-- The cursor discipline of every drain operation of the codec, at one
buffer and starting cursor. -/
def CursorInvariant (buffer : Buffer) (offset : Nat) : Prop :=
  (∀ val, CursorOk buffer offset (BufUint8Drain buffer offset val).ok
    (BufUint8Drain buffer offset val).off) ∧
  (∀ val, CursorOk buffer offset (BufUint16Drain buffer offset val).ok
    (BufUint16Drain buffer offset val).off) ∧
  (∀ val, CursorOk buffer offset (BufUint32Drain buffer offset val).ok
    (BufUint32Drain buffer offset val).off) ∧
  (∀ val, CursorOk buffer offset (BufUint64Drain buffer offset val).ok
    (BufUint64Drain buffer offset val).off) ∧
  (∀ len val, CursorOk buffer offset (BufReadBySizeDrain buffer offset len val).ok
    (BufReadBySizeDrain buffer offset len val).off) ∧
  (∀ skip, CursorOk buffer offset (DrainBytes buffer offset skip).1
    (DrainBytes buffer offset skip).2) ∧
  (∀ str, CursorOk buffer offset (BufStringDrain buffer offset str).ok
    (BufStringDrain buffer offset str).off) ∧
  (∀ len str, CursorOk buffer offset (BufStringDrainBySize buffer offset len str).ok
    (BufStringDrainBySize buffer offset len str).off) ∧
  (∀ val, CursorOk buffer offset (ReadLengthEncodedIntegerDrain buffer offset val).ok
    (ReadLengthEncodedIntegerDrain buffer offset val).off) ∧
  (∀ len seq, CursorOk buffer offset (HdrReadDrain buffer offset len seq).ok
    (HdrReadDrain buffer offset len seq).off)

/-- C6: for every drain operation of the codec (the four fixed-width
reads, read-by-size, byte skip, terminated-string and fixed-length-string
reads, and the length-encoded-integer and header reads), if the cursor is
at most the buffer's length before the call then after any successful call
it is still at most the buffer's length, and no call ever decreases it. -/
theorem cursor_invariant_C6 (buffer : Buffer) (offset : Nat)
    (h : offset ≤ buffer.length) : CursorInvariant buffer offset := by
  refine ⟨fun val => cursorOk_fixedDrain buffer offset 1 val,
    fun val => cursorOk_fixedDrain buffer offset 2 val,
    fun val => cursorOk_fixedDrain buffer offset 4 val,
    fun val => cursorOk_fixedDrain buffer offset 8 val,
    fun len val => cursorOk_readBySize_from buffer offset offset len val (Nat.le_refl offset),
    ?_, fun str => cursorOk_string buffer offset str, ?_,
    fun val => cursorOk_lenenc buffer offset val,
    fun len seq => cursorOk_hdr buffer offset len seq⟩
  · intro skip
    by_cases hg : buffer.length < offset + skip <;>
      simp [DrainBytes, CursorOk, hg] <;> omega
  · intro len str
    by_cases hg : buffer.length < offset + len <;>
      simp [BufStringDrainBySize, CursorOk, hg] <;> omega

/-- C6 witness: the invariant at a concrete buffer and cursor. -/
theorem cursor_invariant_C6_witness :
    0 ≤ (Buffer.mk [0]).length ∧ CursorInvariant ⟨[0]⟩ 0 :=
  ⟨by decide, cursor_invariant_C6 ⟨[0]⟩ 0 (by decide)⟩

/-- C8: `BufStringDrain` succeeds iff a terminator byte 0x00 occurs at or
after the cursor within the buffer's current content; on success the
output string is exactly the bytes from the cursor up to but excluding the
first such terminator and the cursor advances one past that terminator;
on failure the cursor (and output) are unchanged. -/
theorem buf_string_drain_C8 (buffer : Buffer) (offset : Nat) (str : List Nat) :
    ((BufStringDrain buffer offset str).ok = true ↔
      ∃ i, offset ≤ i ∧ i < buffer.length ∧ buffer.data.get? i = some MYSQL_STR_END) ∧
    (∀ index, offset ≤ index → buffer.data.get? index = some MYSQL_STR_END →
      (∀ i, i < index → offset ≤ i → buffer.data.get? i ≠ some MYSQL_STR_END) →
      BufStringDrain buffer offset str =
        ⟨true, index + 1, (buffer.data.take index).drop offset⟩) ∧
    ((BufStringDrain buffer offset str).ok = false →
      (BufStringDrain buffer offset str).off = offset ∧
      (BufStringDrain buffer offset str).val = str) := by
  cases hs : buffer.search MYSQL_STR_END offset with
  | none =>
    have hnone := search_none hs
    refine ⟨?_, ?_, ?_⟩
    · simp only [BufStringDrain, hs]
      constructor
      · intro hko
        simp at hko
      · rintro ⟨i, h1, -, h3⟩
        exact absurd h3 (hnone i h1)
    · intro index h1 h2 _h3
      exact absurd h2 (hnone index h1)
    · intro _hf
      simp [BufStringDrain, hs]
  | some index =>
    obtain ⟨hsi, hlt, hval, hmin⟩ := search_some hs
    have hg : ¬ buffer.length < index + 1 := by omega
    have hres : BufStringDrain buffer offset str =
        ⟨true, index + 1, (buffer.data.take index).drop offset⟩ := by
      simp [BufStringDrain, hs, hg]
    refine ⟨?_, ?_, ?_⟩
    · rw [hres]
      simp only [true_iff]
      exact ⟨index, hsi, hlt, hval⟩
    · intro index2 h1 h2 h3
      have : index2 = index := by
        rcases Nat.lt_trichotomy index2 index with hc | hc | hc
        · exact absurd h2 (hmin index2 h1 hc)
        · exact hc
        · exact absurd hval (h3 index hc hsi)
      rw [this] at *
      exact hres
    · rw [hres]
      intro hf
      simp at hf

/-- C9: if no byte remains at the cursor, `ParseCmd` returns `COM_NULL`
and leaves the cursor unchanged; otherwise it consumes exactly one byte,
advancing the cursor by one, and returns that byte's value as the
command. -/
theorem parse_cmd_C9 (buffer : Buffer) (offset : Nat) :
    (buffer.length < offset + 1 → ParseCmd buffer offset = (Cmd.COM_NULL, offset)) ∧
    (offset + 1 ≤ buffer.length →
      ParseCmd buffer offset = (Cmd.ofByte (buffer.data.getD offset 0), offset + 1)) := by
  constructor
  · intro h
    simp [ParseCmd, BufUint8Drain, fixedDrain, h]
  · intro h
    have hg : ¬ buffer.length < offset + 1 := by omega
    have hoff : offset < buffer.data.length := by
      unfold Buffer.length at h
      omega
    have hbyte : buffer.copyOutBytes offset 1 = [buffer.data.getD offset 0] := by
      unfold Buffer.copyOutBytes
      rw [List.drop_eq_getElem_cons hoff, List.getD_eq_getElem buffer.data 0 hoff]
      rfl
    simp [ParseCmd, BufUint8Drain, fixedDrain, hg, hbyte, leVal]

/-- C2 witness: the spec's concrete header bytes, via the theorem and a
direct evaluation showing (length, sequence) = (5, 1). -/
theorem hdr_read_drain_decode_C2_witness :
    (HdrReadDrain ⟨[5, 0, 0, 1]⟩ 0 0 0 =
      ⟨true, 0 + 4, leVal (((Buffer.mk [5, 0, 0, 1]).copyOutBytes 0 4).take 3),
        ((Buffer.mk [5, 0, 0, 1]).copyOutBytes 0 4).getD 3 0⟩) ∧
    HdrReadDrain ⟨[5, 0, 0, 1]⟩ 0 0 0 = ⟨true, 4, 5, 1⟩ :=
  ⟨hdr_read_drain_decode_C2 ⟨[5, 0, 0, 1]⟩ 0 0 0 (by decide) (by decide), by decide⟩

/-- C3 witness: a 5-byte payload with sequence 1 round-trips. -/
theorem encode_hdr_roundtrip_C3_witness :
    HdrReadDrain ⟨EncodeHdr [0x41, 0x42, 0x43, 0x44, 0x45] 1⟩ 0 0 0 = ⟨true, 4, 5, 1⟩ := by
  have h := encode_hdr_roundtrip_C3 [0x41, 0x42, 0x43, 0x44, 0x45] 1 (by decide) (by decide)
  simpa using h

/-- C5 witness: the success case of the 8-bit drain at a concrete input. -/
theorem fixed_width_drain_contract_C5_witness :
    BufUint8Drain ⟨[7]⟩ 0 5 = ⟨true, 0 + 1, leVal ((Buffer.mk [7]).copyOutBytes 0 1)⟩ :=
  (fixed_width_drain_contract_C5.1 ⟨[7]⟩ 0 5).2.1 (by decide)

/-- C8 witness: the success case at a concrete buffer with an interior
terminator. -/
theorem buf_string_drain_C8_witness :
    BufStringDrain ⟨[0x41, 0x42, 0x00, 0x43]⟩ 1 [9] =
      ⟨true, 2 + 1, ((Buffer.mk [0x41, 0x42, 0x00, 0x43]).data.take 2).drop 1⟩ :=
  (buf_string_drain_C8 ⟨[0x41, 0x42, 0x00, 0x43]⟩ 1 [9]).2.1 2
    (by decide) (by decide) (by decide)

/-- C9 witness: both branches at concrete inputs. -/
theorem parse_cmd_C9_witness :
    ParseCmd ⟨[3]⟩ 1 = (Cmd.COM_NULL, 1) ∧
    ParseCmd ⟨[3]⟩ 0 = (Cmd.ofByte ((Buffer.mk [3]).data.getD 0 0), 0 + 1) :=
  ⟨(parse_cmd_C9 ⟨[3]⟩ 1).1 (by decide), (parse_cmd_C9 ⟨[3]⟩ 0).2 (by decide)⟩

end MySQLProxy
